import Mathlib

/-!
Verification of the distributed GraphSAGE node-classification training script
(`examples/distributed/graphsage/node_classification.py`).

The script is orchestration glue over a distributed graph store, a neighbor
sampler, a data loader and a tensor/autograd runtime.  This development gives
a shallow embedding of the script's own logic (accuracy computation, the
model construction and forward pass, layer-wise inference, the evaluation
routine, the training-loop return values and the driver's argument handling)
over exact rational arithmetic, together with theorems about that embedding.

Floating-point tensor entries are modelled as rationals; an operation whose
IEEE result is NaN (such as the 0/0 arising from an empty prediction matrix)
is modelled as `none` of an `Option` type.  Library calls that the script
delegates to (argmax, elementwise comparison with 1-d broadcasting, mean
aggregation, batching of a node list by a data loader) are embedded with
their documented semantics.
-/

namespace NodeClassification

/-- Truncation of a rational toward zero, modelling the integer cast performed
by `labels.long()` (and Python `int(...)`) on floating-point class labels. -/
def truncQ (q : ℚ) : ℤ :=
  if 0 ≤ q.num then ((q.num.toNat / q.den : ℕ) : ℤ)
  else -(((-q.num).toNat / q.den : ℕ) : ℤ)

/-- Helper for `argmaxRow`: scan the remaining entries, keeping the index of
the first maximal value seen so far (a strictly larger value replaces it). -/
def argmaxAux : List ℚ → ℕ → ℕ → ℚ → ℕ
  | [], _, bi, _ => bi
  | x :: xs, i, bi, bv =>
    if bv < x then argmaxAux xs (i + 1) i x else argmaxAux xs (i + 1) bi bv

/-- Index of the first maximal entry of a row (0 for an empty row), modelling
`th.argmax(pred, dim=1)` applied to one row of the prediction matrix. -/
def argmaxRow : List ℚ → ℕ
  | [] => 0
  | x :: xs => argmaxAux xs 1 0 x

/-- Elementwise equality of two 1-d integer tensors with the tensor library's
broadcasting rule: equal lengths compare pointwise, a length-1 operand is
broadcast against the other, and any other length mismatch is a shape error
(`none`). -/
def tensorEq1d (a b : List ℤ) : Option (List Bool) :=
  if a.length = b.length then some ((a.zip b).map (fun p => decide (p.1 = p.2)))
  else if a.length = 1 then some (b.map (fun x => decide (a.getD 0 0 = x)))
  else if b.length = 1 then some (a.map (fun x => decide (x = b.getD 0 0)))
  else none

/-- Float division of a sum by an element count: dividing by zero gives the
IEEE 0/0 result, which is not a number (`none`). -/
def floatDivNat (a : ℚ) (n : ℕ) : Option ℚ :=
  if n = 0 then none else some (a / n)

/-- `compute_acc(pred, labels)` from the script: cast the labels to integers
(`labels.long()`), compare the per-row argmax of `pred` with the labels, and
divide the number of matches by `len(pred)`. -/
def compute_acc (pred : List (List ℚ)) (labels : List ℚ) : Option ℚ :=
  let lab : List ℤ := labels.map truncQ
  let am : List ℤ := pred.map (fun r => (argmaxRow r : ℤ))
  (tensorEq1d am lab).bind (fun eqs => floatDivNat ((eqs.countP (fun b => b)) : ℚ) pred.length)

/-- The number of rows of `pred` whose argmax column index equals the
integer-cast label at the same position. -/
def matchCount (pred : List (List ℚ)) (labels : List ℚ) : ℕ :=
  (pred.zip labels).countP (fun p => decide ((argmaxRow p.1 : ℤ) = truncQ p.2))

lemma compute_acc_eq_matchCount (pred : List (List ℚ)) (labels : List ℚ)
    (hlen : labels.length = pred.length) :
    compute_acc pred labels = floatDivNat (matchCount pred labels) pred.length := by
  unfold compute_acc matchCount tensorEq1d
  dsimp only
  have hl : (pred.map (fun r => (argmaxRow r : ℤ))).length = (labels.map truncQ).length := by
    simp [hlen]
  rw [if_pos hl]
  have hzip : (pred.map (fun r => (argmaxRow r : ℤ))).zip (labels.map truncQ)
      = (pred.zip labels).map (Prod.map (fun r => (argmaxRow r : ℤ)) truncQ) := by
    rw [List.zip_map]
  rw [hzip, Option.some_bind, List.countP_map, List.countP_map]
  rfl

theorem matchCount_le (pred : List (List ℚ)) (labels : List ℚ) :
    matchCount pred labels ≤ pred.length := by
  calc matchCount pred labels ≤ (pred.zip labels).length := List.countP_le_length _
    _ = min pred.length labels.length := List.length_zip _ _
    _ ≤ pred.length := min_le_left _ _

/-- C1: for a nonempty prediction matrix and a label vector of the same
length, `compute_acc` returns the fraction of rows whose argmax column equals
the integer-cast label, a scalar in [0,1]; it is 1 when every row matches,
0 when no row matches, and 1 on the concrete example of the spec. -/
theorem c1_compute_acc_fraction (pred : List (List ℚ)) (labels : List ℚ)
    (hpos : 0 < pred.length) (hlen : labels.length = pred.length) :
    compute_acc pred labels = some ((matchCount pred labels : ℚ) / pred.length) ∧
    (∀ q : ℚ, compute_acc pred labels = some q → 0 ≤ q ∧ q ≤ 1) ∧
    (matchCount pred labels = pred.length → compute_acc pred labels = some 1) ∧
    (matchCount pred labels = 0 → compute_acc pred labels = some 0) ∧
    compute_acc [[9/10, 1/10], [2/10, 8/10]] [0, 1] = some 1 := by
  have hne : pred.length ≠ 0 := Nat.pos_iff_ne_zero.mp hpos
  have hmain : compute_acc pred labels = some ((matchCount pred labels : ℚ) / pred.length) := by
    rw [compute_acc_eq_matchCount pred labels hlen, floatDivNat, if_neg hne]
  refine ⟨hmain, ?_, ?_, ?_, ?_⟩
  · intro q hq
    rw [hmain] at hq
    obtain rfl : ((matchCount pred labels : ℚ) / pred.length) = q := Option.some.inj hq
    have hden : (0 : ℚ) < (pred.length : ℚ) := by exact_mod_cast hpos
    constructor
    · positivity
    · rw [div_le_one hden]
      exact_mod_cast matchCount_le pred labels
  · intro hall
    rw [hmain, hall, div_self (by exact_mod_cast hne)]
  · intro hnone
    rw [hmain, hnone]
    norm_num
  · rw [compute_acc_eq_matchCount _ _ (by simp)]
    have hm : matchCount [[9/10, 1/10], [2/10, 8/10]] [0, 1] = 2 := by
      norm_num [matchCount, List.countP_cons, argmaxRow, argmaxAux, truncQ]
    rw [hm]
    norm_num [floatDivNat]

/-- Witness for C1: the theorem applied to the spec's concrete example. -/
theorem c1_witness :
    0 < ([[9/10, 1/10], [2/10, 8/10]] : List (List ℚ)).length ∧
    compute_acc [[9/10, 1/10], [2/10, 8/10]] [0, 1] =
      some ((matchCount [[9/10, 1/10], [2/10, 8/10]] [0, 1] : ℚ) /
        ([[9/10, 1/10], [2/10, 8/10]] : List (List ℚ)).length) :=
  ⟨by simp,
    (c1_compute_acc_fraction [[9/10, 1/10], [2/10, 8/10]] [0, 1]
      (by simp) (by simp)).1⟩

/-- C10: `compute_acc` divides by `len(pred)`, not by the number of labels.
On an empty prediction matrix the result is the 0/0 NaN (`none`), for any
label vector.  With one prediction row and two labels the length-1 argmax
broadcasts against both labels, so the result is 2 matches divided by
`len(pred) = 1`, which is 2: strictly above 1 (not a scalar in [0,1]) and
different from the fraction of matching label entries, which is 1. -/
theorem c10_compute_acc_divides_by_len_pred :
    (∀ labels : List ℚ, compute_acc [] labels = none) ∧
    compute_acc [[1, 0]] [0, 0] = some 2 ∧
    1 < (2 : ℚ) ∧
    ((([0, 0] : List ℚ).countP
        (fun l => decide ((argmaxRow [1, 0] : ℤ) = truncQ l)) : ℚ) /
      ([0, 0] : List ℚ).length = 1) ∧
    (1 : ℚ) < 2 := by
  refine ⟨?_, ?_, by norm_num, ?_, by norm_num⟩
  · intro labels
    match labels with
    | [] => simp [compute_acc, tensorEq1d, floatDivNat]
    | [a] => simp [compute_acc, tensorEq1d, floatDivNat]
    | a :: b :: tl => simp [compute_acc, tensorEq1d]
  · norm_num [compute_acc, tensorEq1d, floatDivNat, List.countP_cons,
      argmaxRow, argmaxAux, truncQ]
  · norm_num [List.countP_cons, argmaxRow, argmaxAux, truncQ]

/-- Python slice `xs[-k:]`: for `k = 0` the slice is the whole list (Python's
`xs[-0:]` equals `xs[0:]`), for `k > 0` it keeps the last `k` elements (all of
them when `k` exceeds the length). -/
def pySliceLast (k : ℕ) (xs : List ℚ) : List ℚ :=
  if k = 0 then xs else xs.drop (xs.length - k)

/-- `np.mean` over a list: the NaN of `np.mean([])` is modelled as `none`. -/
def npMean (xs : List ℚ) : Option ℚ :=
  if xs.length = 0 then none else some (xs.sum / xs.length)

/-- `int(num_epochs * 0.8)`: the float product truncated toward zero.  For the
nonnegative `num_epochs` this is the exact floor of `4 * n / 5` (for these
magnitudes the rounding of the double product never crosses an integer). -/
def pyInt08 (n : ℕ) : ℕ :=
  4 * n / 5

/-- The run-time observations the training loop folds over: the wall-clock
duration of each epoch (1-indexed) and the test accuracy that `evaluate`
reports at the end of a given epoch. -/
structure RunWorld where
  epochDur : ℕ → ℚ
  evalAcc : ℕ → ℚ

/-- The training loop of `run`: per epoch append the epoch duration to
`epoch_time`; at every epoch divisible by `eval_every`, and at the final
epoch, replace `test_acc` (initially 0.0) by that epoch's evaluation result. -/
def runLoop (num_epochs eval_every : ℕ) (w : RunWorld) : List ℚ × ℚ :=
  (List.range' 1 num_epochs).foldl
    (fun (st : List ℚ × ℚ) epoch =>
      (st.1 ++ [w.epochDur epoch],
        if epoch % eval_every = 0 ∨ epoch = num_epochs then w.evalAcc epoch else st.2))
    ([], 0)

/-- Return value of `run`:
`np.mean(epoch_time[-int(args.num_epochs * 0.8):]), test_acc`. -/
def runReturn (num_epochs eval_every : ℕ) (w : RunWorld) : Option ℚ × ℚ :=
  let st := runLoop num_epochs eval_every w
  (npMean (pySliceLast (pyInt08 num_epochs) st.1), st.2)

lemma runFold_fst (num_epochs eval_every : ℕ) (w : RunWorld) (l : List ℕ) :
    ∀ (ts : List ℚ) (a : ℚ),
      (l.foldl (fun (st : List ℚ × ℚ) epoch =>
        (st.1 ++ [w.epochDur epoch],
          if epoch % eval_every = 0 ∨ epoch = num_epochs then w.evalAcc epoch else st.2))
        (ts, a)).1 = ts ++ l.map w.epochDur := by
  induction l with
  | nil => intro ts a; simp
  | cons e tl ih =>
    intro ts a
    rw [List.foldl_cons, List.map_cons]
    rw [ih]
    simp

lemma runLoop_times (num_epochs eval_every : ℕ) (w : RunWorld) :
    (runLoop num_epochs eval_every w).1 = (List.range' 1 num_epochs).map w.epochDur := by
  unfold runLoop
  rw [runFold_fst num_epochs eval_every w (List.range' 1 num_epochs) [] 0]
  simp

lemma runLoop_testAcc (num_epochs eval_every : ℕ) (w : RunWorld) (h : 1 ≤ num_epochs) :
    (runLoop num_epochs eval_every w).2 = w.evalAcc num_epochs := by
  unfold runLoop
  obtain ⟨k, rfl⟩ : ∃ k, num_epochs = k + 1 := ⟨num_epochs - 1, by omega⟩
  rw [List.range'_concat]
  have h1k : 1 + 1 * k = k + 1 := by omega
  rw [h1k, List.foldl_append, List.foldl_cons, List.foldl_nil]
  have hc : (k + 1) % eval_every = 0 ∨ k + 1 = k + 1 := Or.inr rfl
  rw [if_pos hc]

/-- C2 counterexample: with 2 epochs of durations 10 and 20 the code averages
over `epoch_time[-int(2*0.8):] = epoch_time[-1:]`, the last single epoch,
returning 20, while the mean over the last `ceil(0.8*2) = 2` epochs claimed
by the spec is 15. -/
theorem c2_counterexample :
    (runReturn 2 5 ⟨fun e => 10 * e, fun _ => 1/2⟩).1 = some 20 ∧
    Nat.ceil ((8 : ℚ) / 10 * 2) = 2 ∧
    npMean (pySliceLast 2 [10, 20]) = some 15 ∧
    (15 : ℚ) < 20 := by
  refine ⟨?_, ?_, ?_, by norm_num⟩
  · norm_num [runReturn, runLoop, List.range', pyInt08, pySliceLast, npMean]
  · have h85 : ((8 : ℚ) / 10 * 2) = 8/5 := by norm_num
    rw [h85, Nat.ceil_eq_iff (by norm_num)]
    norm_num
  · norm_num [npMean, pySliceLast]

/-- C2 (amended): for `num_epochs ≥ 1` the first return value of `run` is the
mean of the per-epoch durations over exactly the last
`max 1 (int(0.8 * num_epochs))` epochs — the floor, not the ceiling, of
`0.8 * num_epochs`, except that for `num_epochs = 1` the slice `[-0:]` keeps
the whole (single-element) list — and the second return value is the test
accuracy of the evaluation at the final epoch. -/
theorem c2_amended_run_return (num_epochs eval_every : ℕ) (w : RunWorld)
    (h : 1 ≤ num_epochs) :
    (runReturn num_epochs eval_every w).1 =
      some ((((List.range' 1 num_epochs).map w.epochDur).drop
          (num_epochs - max 1 (4 * num_epochs / 5))).sum / (max 1 (4 * num_epochs / 5) : ℕ)) ∧
    (runReturn num_epochs eval_every w).2 = w.evalAcc num_epochs := by
  constructor
  · unfold runReturn
    dsimp only
    rw [runLoop_times]
    set ds := (List.range' 1 num_epochs).map w.epochDur with hds
    have hlen : ds.length = num_epochs := by
      rw [hds, List.length_map, List.length_range']
    by_cases h0 : pyInt08 num_epochs = 0
    · have hn1 : num_epochs = 1 := by
        unfold pyInt08 at h0; omega
      have hmax : max 1 (4 * num_epochs / 5) = 1 := by omega
      rw [pySliceLast, if_pos h0, hmax, npMean, if_neg (by omega), hlen]
      subst hn1
      rw [hds]
      simp
    · have hle : pyInt08 num_epochs ≤ num_epochs := by
        unfold pyInt08; omega
      have hmax : max 1 (4 * num_epochs / 5) = pyInt08 num_epochs := by
        unfold pyInt08 at h0 ⊢; omega
      rw [pySliceLast, if_neg h0, npMean, hmax]
      have hdroplen : (ds.drop (ds.length - pyInt08 num_epochs)).length = pyInt08 num_epochs := by
        rw [List.length_drop]; omega
      rw [if_neg (by omega), hdroplen, hlen]
  · unfold runReturn
    dsimp only
    exact runLoop_testAcc num_epochs eval_every w h

/-- Witness for C2: 10 epochs of durations 10,20,…,100 with `eval_every = 5`;
the mean covers the last 8 epochs and equals 65, the final accuracy is 1/2. -/
theorem c2_witness :
    1 ≤ 10 ∧
    (runReturn 10 5 ⟨fun e => 10 * e, fun _ => 1/2⟩).1 =
      some ((((List.range' 1 10).map (fun e => (10 : ℚ) * e)).drop
          (10 - max 1 (4 * 10 / 5))).sum / (max 1 (4 * 10 / 5) : ℕ)) ∧
    (runReturn 10 5 ⟨fun e => 10 * e, fun _ => 1/2⟩).2 = 1/2 :=
  ⟨by norm_num,
    (c2_amended_run_return 10 5 ⟨fun e => 10 * e, fun _ => 1/2⟩ (by norm_num)).1,
    (c2_amended_run_return 10 5 ⟨fun e => 10 * e, fun _ => 1/2⟩ (by norm_num)).2⟩

/-- The command-line arguments of the script after parsing, with each field at
its parsed type (`--fan_out` is kept as the parsed list of per-layer
fan-outs). `pad_data` is `True` exactly when the `--pad-data` flag is
present. -/
structure Args where
  graph_name : String
  ip_config : String
  part_config : String
  n_classes : ℤ
  backend : String
  num_gpus : ℕ
  num_epochs : ℕ
  num_hidden : ℕ
  num_layers : ℕ
  fan_out : List ℤ
  batch_size : ℕ
  batch_size_eval : ℕ
  log_every : ℕ
  eval_every : ℕ
  lr : ℚ
  dropout : ℚ
  local_rank : ℤ
  pad_data : Bool
  net_type : String

/-- A label tensor entry: a float value, or the NaN sentinel (`none`) marking
an unlabeled node. -/
def LabelVal : Type := Option ℚ

/-- The driver's class-count computation: `args.n_classes` when nonzero,
otherwise `len(th.unique(labels[th.logical_not(th.isnan(labels))]))` — the
number of distinct values among the non-NaN labels (`th.unique` sorts and
deduplicates; only the count is used). -/
def nClassesOf (args : Args) (labels : List (Option ℚ)) : ℤ :=
  if args.n_classes = 0 then (((labels.filterMap (fun x => x)).dedup).length : ℤ)
  else args.n_classes

/-- C8: with `--n_classes 0` the detected class count is the number of
distinct non-NaN values in the label array; with a nonzero `--n_classes` the
given value is used unchanged. -/
theorem c8_n_classes_autodetect (args : Args) (labels : List (Option ℚ)) :
    (args.n_classes = 0 →
      nClassesOf args labels = ((labels.filterMap (fun x => x)).toFinset.card : ℤ)) ∧
    (args.n_classes ≠ 0 → nClassesOf args labels = args.n_classes) := by
  constructor
  · intro h0
    rw [nClassesOf, if_pos h0, List.card_toFinset]
  · intro hn
    rw [nClassesOf, if_neg hn]

/-- A fixed argument record used to instantiate theorems about the driver. -/
def argsW : Args :=
  { graph_name := "g", ip_config := "ip", part_config := "part",
    n_classes := 0, backend := "gloo", num_gpus := 0, num_epochs := 10,
    num_hidden := 16, num_layers := 2, fan_out := [10, 25], batch_size := 1000,
    batch_size_eval := 100000, log_every := 20, eval_every := 5, lr := 3/1000,
    dropout := 1/2, local_rank := 0, pad_data := false, net_type := "socket" }

/-- Witness for C8: auto-detection on labels `[1.0, NaN, 1.0, 3.0]` finds the
2 distinct non-NaN values. -/
theorem c8_witness :
    argsW.n_classes = 0 ∧
    nClassesOf argsW [some 1, none, some 1, some 3] =
      ((([some 1, none, some 1, some 3] : List (Option ℚ)).filterMap
        (fun x => x)).toFinset.card : ℤ) ∧
    ((([some 1, none, some 1, some 3] : List (Option ℚ)).filterMap
        (fun x => x)).toFinset.card : ℤ) = 2 :=
  ⟨rfl,
    (c8_n_classes_autodetect argsW [some 1, none, some 1, some 3]).1 rfl,
    by decide⟩

/-- The external observations the driver's execution depends on: the label
tensor, this process's rank, the per-epoch training observations. -/
structure MainWorld where
  labels : List (Option ℚ)
  rank : ℕ
  runW : RunWorld

/-- Device selection of `main`: CPU when `--num_gpus 0`, otherwise the CUDA
device `rank % num_gpus`. -/
def deviceOf (args : Args) (rank : ℕ) : Option ℕ :=
  if args.num_gpus = 0 then none else some (rank % args.num_gpus)

/-- The observable outcome of the driver: the chosen device, the class count,
and the two values of the final summary line (mean epoch time and final test
accuracy as returned by `run`). -/
structure MainResult where
  device : Option ℕ
  n_classes : ℤ
  meanEpochTime : Option ℚ
  test_acc : ℚ
deriving DecidableEq

/-- The driver `main` as a function of the parsed arguments and the external
observations: selects the device, resolves the class count, runs the training
loop and reports its return values. -/
def mainDriver (args : Args) (w : MainWorld) : MainResult :=
  { device := deviceOf args w.rank,
    n_classes := nClassesOf args w.labels,
    meanEpochTime := (runReturn args.num_epochs args.eval_every w.runW).1,
    test_acc := (runReturn args.num_epochs args.eval_every w.runW).2 }

/-- C9: `--pad-data` is parsed into `args.pad_data` but never read, so two
argument records that differ only in that flag produce identical observable
behaviour in every world. -/
theorem c9_pad_data_unused (args : Args) (v : Bool) (w : MainWorld) :
    mainDriver { args with pad_data := v } w = mainDriver args w := rfl

/-- Parameters of one linear map pair of a graph-convolution layer: the
self-connection weights, the neighbor-aggregation weights and the bias. -/
structure ConvWeights where
  wSelf : ℕ → ℕ → ℚ
  wNeigh : ℕ → ℕ → ℚ
  bias : ℕ → ℚ

/-- Modelled from the spec: a mean-aggregation graph-convolution layer
(`dglnn.SAGEConv(in_feats, out_feats, "mean")`, library code outside the
script): the output for a destination node is a linear map of its own
representation plus a linear map of the mean of its in-neighbors'
representations, plus a bias. -/
structure SAGEConvQ where
  inFeats : ℕ
  outFeats : ℕ
  wSelf : ℕ → ℕ → ℚ
  wNeigh : ℕ → ℕ → ℚ
  bias : ℕ → ℚ

def mkConv (w : ConvWeights) (inF outF : ℕ) : SAGEConvQ :=
  { inFeats := inF, outFeats := outF, wSelf := w.wSelf, wNeigh := w.wNeigh, bias := w.bias }

def defaultConv : SAGEConvQ :=
  { inFeats := 0, outFeats := 0, wSelf := fun _ _ => 0, wNeigh := fun _ _ => 0, bias := fun _ => 0 }

/-- Modelled from the spec: an ephemeral bipartite sampled subgraph ("block")
produced by the sampler.  The destination nodes are the first `numDst` source
rows, and `nbrs j` lists the source-row indices of the sampled in-neighbors
of destination node `j`. -/
structure BlockB where
  numDst : ℕ
  nbrs : ℕ → List ℕ

def defaultBlock : BlockB :=
  { numDst := 0, nbrs := fun _ => [] }

/-- Entry `(v, i)` of a feature matrix stored as a list of rows. -/
def rowGet (h : List (List ℚ)) (v i : ℕ) : ℚ :=
  (h.getD v []).getD i 0

/-- Feature `i` of the mean of the in-neighbors of destination node `j` in a
block; the mean over an empty neighbor list is 0, as in the library. -/
def meanNbrFeat (b : BlockB) (h : List (List ℚ)) (j i : ℕ) : ℚ :=
  if (b.nbrs j).length = 0 then 0
  else ((b.nbrs j).map (fun u => rowGet h u i)).sum / (b.nbrs j).length

/-- Modelled from the spec: applying a mean-aggregation convolution to a
block and the source-node features produces one row per destination node,
each of width `outFeats`. -/
def SAGEConvQ.apply (c : SAGEConvQ) (b : BlockB) (h : List (List ℚ)) : List (List ℚ) :=
  (List.range b.numDst).map (fun j =>
    (List.range c.outFeats).map (fun o =>
      ((List.range c.inFeats).map (fun i => c.wSelf o i * rowGet h j i)).sum
      + ((List.range c.inFeats).map (fun i => c.wNeigh o i * meanNbrFeat b h j i)).sum
      + c.bias o))

/-- The DistSAGE model state: the stacked convolution layers, the activation,
the dropout probability and the module's training flag (`nn.Module` starts in
training mode; `eval()` and `train()` toggle it). -/
structure DistSAGE where
  n_layers : ℕ
  n_hidden : ℕ
  n_classes : ℕ
  layers : List SAGEConvQ
  activation : ℚ → ℚ
  dropoutP : ℚ
  training : Bool

/-- `DistSAGE.__init__`: one convolution `in_feats → n_hidden`, then one
`n_hidden → n_hidden` convolution per iteration of `range(1, n_layers - 1)`,
then one `n_hidden → n_classes` convolution.  `w i` supplies the initialized
parameters of the i-th appended layer. -/
def DistSAGE.init (in_feats n_hidden n_classes n_layers : ℕ)
    (activation : ℚ → ℚ) (dropout : ℚ) (w : ℕ → ConvWeights) : DistSAGE :=
  { n_layers := n_layers, n_hidden := n_hidden, n_classes := n_classes,
    layers := mkConv (w 0) in_feats n_hidden
      :: ((List.range (n_layers - 2)).map (fun j => mkConv (w (j + 1)) n_hidden n_hidden)
        ++ [mkConv (w (n_layers - 1)) n_hidden n_classes]),
    activation := activation, dropoutP := dropout, training := true }

/-- Entrywise application of the activation function to a feature matrix. -/
def matMap (f : ℚ → ℚ) (h : List (List ℚ)) : List (List ℚ) :=
  h.map (fun r => r.map f)

/-- `nn.Dropout(p)` on a matrix: in training mode each entry is zeroed when
its Bernoulli mask bit is set and scaled by `1/(1-p)` otherwise; in
inference mode it is the identity.  The mask stands for the RNG draw. -/
def dropoutMat (m : DistSAGE) (mask : ℕ → ℕ → Bool) (h : List (List ℚ)) : List (List ℚ) :=
  if m.training then
    (List.range h.length).map (fun v =>
      (List.range ((h.getD v []).length)).map (fun o =>
        if mask v o then 0 else (h.getD v []).getD o 0 / (1 - m.dropoutP)))
  else h

/-- The loop body of `DistSAGE.forward`: walk over `zip(self.layers, blocks)`
with the running index `i`, applying each layer and then, when
`i != len(self.layers) - 1`, the activation followed by dropout.  Also counts
how many times the activation+dropout step runs. -/
def forwardAux (m : DistSAGE) (masks : ℕ → ℕ → ℕ → Bool) (total : ℕ) :
    ℕ → List (SAGEConvQ × BlockB) → List (List ℚ) → List (List ℚ) × ℕ
  | _, [], h => (h, 0)
  | i, (c, b) :: rest, h =>
    let h1 := SAGEConvQ.apply c b h
    if i ≠ total - 1 then
      let h2 := dropoutMat m (masks i) (matMap m.activation h1)
      let r := forwardAux m masks total (i + 1) rest h2
      (r.1, r.2 + 1)
    else
      forwardAux m masks total (i + 1) rest h1

/-- `DistSAGE.forward` with an activation+dropout application counter. -/
def DistSAGE.forwardCounted (m : DistSAGE) (masks : ℕ → ℕ → ℕ → Bool)
    (blocks : List BlockB) (x : List (List ℚ)) : List (List ℚ) × ℕ :=
  forwardAux m masks m.layers.length 0 (m.layers.zip blocks) x

/-- `DistSAGE.forward(blocks, x)`: the final representation. -/
def DistSAGE.forward (m : DistSAGE) (masks : ℕ → ℕ → ℕ → Bool)
    (blocks : List BlockB) (x : List (List ℚ)) : List (List ℚ) :=
  (m.forwardCounted masks blocks x).1

lemma DistSAGE.init_layers_length (in_feats n_hidden n_classes n_layers : ℕ)
    (activation : ℚ → ℚ) (dropout : ℚ) (w : ℕ → ConvWeights) (h : 2 ≤ n_layers) :
    (DistSAGE.init in_feats n_hidden n_classes n_layers activation dropout w).layers.length
      = n_layers := by
  simp [DistSAGE.init]
  omega

lemma forwardAux_count (m : DistSAGE) (masks : ℕ → ℕ → ℕ → Bool) (total : ℕ) :
    ∀ (pairs : List (SAGEConvQ × BlockB)) (i : ℕ) (h : List (List ℚ)),
      i + pairs.length = total → 0 < pairs.length →
      (forwardAux m masks total i pairs h).2 = pairs.length - 1 := by
  intro pairs
  induction pairs with
  | nil => intro i h htot hpos; simp at hpos
  | cons pb rest ih =>
    intro i h htot hpos
    match rest with
    | [] =>
      have hi : i = total - 1 := by simp at htot; omega
      obtain ⟨c, b⟩ := pb
      rw [forwardAux, if_neg (by omega)]
      rfl
    | q :: rest2 =>
      have hi : i ≠ total - 1 := by simp at htot ⊢; omega
      obtain ⟨c, b⟩ := pb
      rw [forwardAux, if_pos hi]
      dsimp only
      have := ih (i + 1) (dropoutMat m (masks i) (matMap m.activation (SAGEConvQ.apply c b h)))
        (by simp at htot ⊢; omega) (by simp)
      rw [this]
      simp

/-- C3 counterexample: constructing DistSAGE with `n_layers = 1` yields a
model with 2 convolution layers (the first and last `append` both run), not
1, and the forward pass on the single block of a 1-layer sampler applies
activation+dropout once, not `n_layers - 1 = 0` times. -/
theorem c3_counterexample :
    (DistSAGE.init 1 1 1 1 (fun q => max q 0) (1/2) (fun _ => ⟨fun _ _ => 1, fun _ _ => 1, fun _ => 0⟩)).layers.length = 2 ∧
    1 < 2 ∧
    ((DistSAGE.init 1 1 1 1 (fun q => max q 0) (1/2) (fun _ => ⟨fun _ _ => 1, fun _ _ => 1, fun _ => 0⟩)).forwardCounted
      (fun _ _ _ => false) [⟨1, fun _ => [0]⟩] [[1]]).2 = 1 ∧
    0 < 1 := by
  refine ⟨rfl, by norm_num, ?_, by norm_num⟩
  rfl

/-- C3 (amended): for every `n_layers ≥ 2` the constructed model has exactly
`n_layers` convolution layers, and the training forward pass over a block
list of matching length applies activation followed by dropout exactly
`n_layers - 1` times (for `n_layers = 1` the constructor instead produces 2
layers). -/
theorem c3_amended_layer_count (in_feats n_hidden n_classes n_layers : ℕ)
    (activation : ℚ → ℚ) (dropout : ℚ) (w : ℕ → ConvWeights) (h : 2 ≤ n_layers) :
    (DistSAGE.init in_feats n_hidden n_classes n_layers activation dropout w).layers.length
      = n_layers ∧
    ∀ (masks : ℕ → ℕ → ℕ → Bool) (blocks : List BlockB) (x : List (List ℚ)),
      blocks.length = n_layers →
      ((DistSAGE.init in_feats n_hidden n_classes n_layers activation dropout w).forwardCounted
        masks blocks x).2 = n_layers - 1 := by
  have hlen := DistSAGE.init_layers_length in_feats n_hidden n_classes n_layers
    activation dropout w h
  refine ⟨hlen, ?_⟩
  intro masks blocks x hb
  unfold DistSAGE.forwardCounted
  have hzlen : ((DistSAGE.init in_feats n_hidden n_classes n_layers activation dropout w).layers.zip
      blocks).length = n_layers := by
    rw [List.length_zip, hlen, hb, min_self]
  rw [forwardAux_count _ _ _ _ 0 x (by rw [hzlen, hlen]; omega) (by omega), hzlen]

/-- Witness for C3: a 3-layer model has 3 layers and its forward pass over 3
blocks applies activation+dropout twice. -/
theorem c3_witness :
    2 ≤ 3 ∧
    (DistSAGE.init 2 2 2 3 (fun q => max q 0) (1/2) (fun _ => ⟨fun _ _ => 1, fun _ _ => 1, fun _ => 0⟩)).layers.length = 3 ∧
    ((DistSAGE.init 2 2 2 3 (fun q => max q 0) (1/2) (fun _ => ⟨fun _ _ => 1, fun _ _ => 1, fun _ => 0⟩)).forwardCounted
      (fun _ _ _ => false) [⟨1, fun _ => [0]⟩, ⟨1, fun _ => [0]⟩, ⟨1, fun _ => [0]⟩] [[1, 1]]).2 = 3 - 1 :=
  ⟨by norm_num,
    (c3_amended_layer_count 2 2 2 3 (fun q => max q 0) (1/2)
      (fun _ => ⟨fun _ _ => 1, fun _ _ => 1, fun _ => 0⟩) (by norm_num)).1,
    (c3_amended_layer_count 2 2 2 3 (fun q => max q 0) (1/2)
      (fun _ => ⟨fun _ _ => 1, fun _ _ => 1, fun _ => 0⟩) (by norm_num)).2
      (fun _ _ _ => false) [⟨1, fun _ => [0]⟩, ⟨1, fun _ => [0]⟩, ⟨1, fun _ => [0]⟩]
      [[1, 1]] rfl⟩

lemma SAGEConvQ.apply_length (c : SAGEConvQ) (b : BlockB) (h : List (List ℚ)) :
    (c.apply b h).length = b.numDst := by
  simp [SAGEConvQ.apply]

lemma SAGEConvQ.apply_row_length (c : SAGEConvQ) (b : BlockB) (h : List (List ℚ)) :
    ∀ r ∈ c.apply b h, r.length = c.outFeats := by
  intro r hr
  obtain ⟨j, _, rfl⟩ := List.mem_map.mp hr
  simp

lemma matMap_length (f : ℚ → ℚ) (h : List (List ℚ)) : (matMap f h).length = h.length := by
  simp [matMap]

lemma matMap_row_length (f : ℚ → ℚ) (h : List (List ℚ)) (k : ℕ)
    (hrow : ∀ r ∈ h, r.length = k) : ∀ r ∈ matMap f h, r.length = k := by
  intro r hr
  obtain ⟨r0, hr0, rfl⟩ := List.mem_map.mp hr
  rw [List.length_map]
  exact hrow r0 hr0

lemma dropoutMat_length (m : DistSAGE) (mask : ℕ → ℕ → Bool) (h : List (List ℚ)) :
    (dropoutMat m mask h).length = h.length := by
  unfold dropoutMat
  by_cases ht : m.training <;> simp [ht]

lemma dropoutMat_row_length (m : DistSAGE) (mask : ℕ → ℕ → Bool) (h : List (List ℚ)) (k : ℕ)
    (hrow : ∀ r ∈ h, r.length = k) : ∀ r ∈ dropoutMat m mask h, r.length = k := by
  unfold dropoutMat
  by_cases ht : m.training
  · rw [if_pos ht]
    intro r hr
    obtain ⟨v, hv, rfl⟩ := List.mem_map.mp hr
    rw [List.length_map, List.length_range]
    have hvlt : v < h.length := List.mem_range.mp hv
    exact hrow (h.getD v []) (by rw [List.getD_eq_getElem h [] hvlt]; exact List.getElem_mem hvlt)
  · rw [if_neg ht]
    exact hrow

lemma forwardAux_shape (m : DistSAGE) (masks : ℕ → ℕ → ℕ → Bool) (total : ℕ) :
    ∀ (pairs : List (SAGEConvQ × BlockB)) (i : ℕ) (h : List (List ℚ))
      (d : SAGEConvQ × BlockB), 0 < pairs.length →
      ((forwardAux m masks total i pairs h).1).length = (pairs.getLastD d).2.numDst ∧
      ∀ r ∈ (forwardAux m masks total i pairs h).1, r.length = (pairs.getLastD d).1.outFeats := by
  intro pairs
  induction pairs with
  | nil => intro i h d hpos; simp at hpos
  | cons pb rest ih =>
    intro i h d hpos
    obtain ⟨c, b⟩ := pb
    match rest with
    | [] =>
      rw [forwardAux]
      by_cases hi : i ≠ total - 1
      · rw [if_pos hi]
        dsimp only
        rw [forwardAux]
        constructor
        · rw [dropoutMat_length, matMap_length, SAGEConvQ.apply_length]
          rfl
        · intro r hr
          have := dropoutMat_row_length m (masks i) (matMap m.activation (SAGEConvQ.apply c b h))
            c.outFeats
            (matMap_row_length m.activation (SAGEConvQ.apply c b h) c.outFeats
              (SAGEConvQ.apply_row_length c b h)) r hr
          rw [this]
          rfl
      · rw [if_neg hi]
        rw [forwardAux]
        exact ⟨SAGEConvQ.apply_length c b h, SAGEConvQ.apply_row_length c b h⟩
    | q :: rest2 =>
      rw [forwardAux]
      have hlast : (((c, b) :: q :: rest2).getLastD d) = ((q :: rest2).getLastD (c, b)) :=
        List.getLastD_cons _ _ _
      rw [hlast]
      by_cases hi : i ≠ total - 1
      · rw [if_pos hi]
        dsimp only
        exact ih (i + 1) _ (c, b) (by simp)
      · rw [if_neg hi]
        exact ih (i + 1) _ (c, b) (by simp)

lemma zip_getLastD {α β : Type} (da : α) (db : β) :
    ∀ (as : List α) (bs : List β), as.length = bs.length →
      ((as.zip bs).getLastD (da, db)) = (as.getLastD da, bs.getLastD db) := by
  intro as
  induction as generalizing da db with
  | nil =>
    intro bs hb
    match bs with
    | [] => rfl
  | cons a tl ih =>
    intro bs hb
    match bs with
    | b :: tlb =>
      rw [List.zip_cons_cons, List.getLastD_cons, List.getLastD_cons, List.getLastD_cons]
      exact ih a b tlb (by simpa using hb)

lemma DistSAGE.init_layers_getLastD (in_feats n_hidden n_classes n_layers : ℕ)
    (activation : ℚ → ℚ) (dropout : ℚ) (w : ℕ → ConvWeights) (d : SAGEConvQ) :
    ((DistSAGE.init in_feats n_hidden n_classes n_layers activation dropout w).layers.getLastD d)
      = mkConv (w (n_layers - 1)) n_hidden n_classes := by
  unfold DistSAGE.init
  dsimp only
  rw [List.getLastD_cons, List.getLastD_concat]

/-- C5: for a block list of length equal to the model's layer count, the
training forward pass returns one row per destination node of the last block
and exactly `n_classes` columns in every row. -/
theorem c5_forward_shape (in_feats n_hidden n_classes n_layers : ℕ)
    (activation : ℚ → ℚ) (dropout : ℚ) (w : ℕ → ConvWeights)
    (masks : ℕ → ℕ → ℕ → Bool) (blocks : List BlockB) (x : List (List ℚ))
    (hb : blocks.length =
      (DistSAGE.init in_feats n_hidden n_classes n_layers activation dropout w).layers.length) :
    ((DistSAGE.init in_feats n_hidden n_classes n_layers activation dropout w).forward
        masks blocks x).length = (blocks.getLastD defaultBlock).numDst ∧
    ∀ r ∈ (DistSAGE.init in_feats n_hidden n_classes n_layers activation dropout w).forward
        masks blocks x, r.length = n_classes := by
  set M := DistSAGE.init in_feats n_hidden n_classes n_layers activation dropout w with hM
  have hMpos : 0 < M.layers.length := by
    rw [hM]
    unfold DistSAGE.init
    simp
  have hzlen : (M.layers.zip blocks).length = M.layers.length := by
    rw [List.length_zip, hb, min_self]
  have hzpos : 0 < (M.layers.zip blocks).length := by rw [hzlen]; exact hMpos
  have hlast := zip_getLastD defaultConv defaultBlock M.layers blocks hb.symm
  have hshape := forwardAux_shape M masks M.layers.length (M.layers.zip blocks) 0 x
    (defaultConv, defaultBlock) hzpos
  unfold DistSAGE.forward DistSAGE.forwardCounted
  rw [hlast] at hshape
  refine ⟨hshape.1, ?_⟩
  intro r hr
  have := hshape.2 r hr
  rw [this]
  have hgl : M.layers.getLastD defaultConv = mkConv (w (n_layers - 1)) n_hidden n_classes := by
    rw [hM]
    exact DistSAGE.init_layers_getLastD in_feats n_hidden n_classes n_layers
      activation dropout w defaultConv
  rw [hgl]
  rfl

/-- Witness for C5: a 2-layer model over 2 blocks whose last block has 3
destination nodes yields a 3-row output with `n_classes = 4` columns each. -/
theorem c5_witness :
    ([⟨(1 : ℕ), fun _ => [0]⟩, ⟨(3 : ℕ), fun _ => [0]⟩] : List BlockB).length =
      (DistSAGE.init 2 2 4 2 (fun q => max q 0) (1/2)
        (fun _ => ⟨fun _ _ => 1, fun _ _ => 1, fun _ => 0⟩)).layers.length ∧
    ((DistSAGE.init 2 2 4 2 (fun q => max q 0) (1/2)
        (fun _ => ⟨fun _ _ => 1, fun _ _ => 1, fun _ => 0⟩)).forward (fun _ _ _ => false)
      [⟨1, fun _ => [0]⟩, ⟨3, fun _ => [0]⟩] [[1, 1]]).length =
      (([⟨(1 : ℕ), fun _ => [0]⟩, ⟨(3 : ℕ), fun _ => [0]⟩] : List BlockB).getLastD
        defaultBlock).numDst ∧
    ∀ r ∈ (DistSAGE.init 2 2 4 2 (fun q => max q 0) (1/2)
        (fun _ => ⟨fun _ _ => 1, fun _ _ => 1, fun _ => 0⟩)).forward (fun _ _ _ => false)
      [⟨1, fun _ => [0]⟩, ⟨3, fun _ => [0]⟩] [[1, 1]], r.length = 4 :=
  ⟨rfl,
    (c5_forward_shape 2 2 4 2 (fun q => max q 0) (1/2)
      (fun _ => ⟨fun _ _ => 1, fun _ _ => 1, fun _ => 0⟩) (fun _ _ _ => false)
      [⟨1, fun _ => [0]⟩, ⟨3, fun _ => [0]⟩] [[1, 1]] rfl).1,
    (c5_forward_shape 2 2 4 2 (fun q => max q 0) (1/2)
      (fun _ => ⟨fun _ _ => 1, fun _ _ => 1, fun _ => 0⟩) (fun _ _ _ => false)
      [⟨1, fun _ => [0]⟩, ⟨3, fun _ => [0]⟩] [[1, 1]] rfl).2⟩

/-- A distributed graph as seen by full-neighborhood (`fan_out = -1`)
one-hop sampling: the node count and every node's in-neighbor list. -/
structure GraphQ where
  numNodes : ℕ
  inNbrs : ℕ → List ℕ

/-- Feature `i` of the mean over the full in-neighborhood of `v` (0 for an
isolated node, as in the library's mean aggregation). -/
def meanInNbr (g : GraphQ) (x : ℕ → ℕ → ℚ) (v i : ℕ) : ℚ :=
  if (g.inNbrs v).length = 0 then 0
  else ((g.inNbrs v).map (fun u => x u i)).sum / (g.inNbrs v).length

/-- Modelled from the spec: the value a mean-aggregation convolution computes
for node `v` when its block contains the full in-neighborhood of `v`
(`NeighborSampler([-1])`): it depends only on `x` at `v` and at `v`'s
in-neighbors. -/
def sageNodeOut (c : SAGEConvQ) (g : GraphQ) (x : ℕ → ℕ → ℚ) (v o : ℕ) : ℚ :=
  if o < c.outFeats then
    ((List.range c.inFeats).map (fun i => c.wSelf o i * x v i)).sum
    + ((List.range c.inFeats).map (fun i => c.wNeigh o i * meanInNbr g x v i)).sum
    + c.bias o
  else 0

/-- One dropout entry (`nn.Dropout`): identity in inference mode, mask-and-
rescale in training mode. -/
def dropout1 (m : DistSAGE) (mask : ℕ → ℕ → Bool) (v o : ℕ) (q : ℚ) : ℚ :=
  if m.training then (if mask v o then 0 else q / (1 - m.dropoutP)) else q

/-- The value layer `i` writes for node `v` during layer-wise inference:
the convolution output, followed by activation and dropout unless `i` is the
last layer (`if i != len(self.layers) - 1`). -/
def layerFun (m : DistSAGE) (masks : ℕ → ℕ → ℕ → Bool) (g : GraphQ) (i : ℕ)
    (x : ℕ → ℕ → ℚ) (v o : ℕ) : ℚ :=
  if i = m.layers.length - 1 then sageNodeOut (m.layers.getD i defaultConv) g x v o
  else dropout1 m (masks i) v o (m.activation (sageNodeOut (m.layers.getD i defaultConv) g x v o))

/-- The all-zero tensor contents a freshly allocated `DistTensor` holds. -/
def zerosT : ℕ → ℕ → ℚ :=
  fun _ _ => 0

/-- The events the inference loop performs, in order: allocating a
distributed tensor `y` of a given shape, building the one-hop sampler,
building the data loader (batch size, shuffle, drop_last, node list),
computing one batch and writing its rows into `y` (recording the shape of
the `y` being written), the `x = y` assignment, and the barrier. -/
inductive InfEvent where
  | allocY (rows cols : ℕ)
  | mkSampler (fanouts : List ℤ)
  | mkLoader (batchSize : ℕ) (shuffle dropLast : Bool) (nodes : List ℕ)
  | procBatch (batch : List ℕ) (yRows yCols : ℕ)
  | assignXY
  | barrier
deriving DecidableEq

/-- The state of the inference loop.  Tensors live in a store indexed by
identity: id 0 is the input feature tensor, id 1 the DistTensor named "h"
allocated before the layer loop, id 2 the DistTensor named "h_last"
allocated at the final layer.  `xid` and `yid` are the tensors the Python
variables `x` and `y` currently refer to, so the `x = y` assignment makes
them alias, exactly as in the source. -/
structure InfState where
  store : ℕ → ℕ → ℕ → ℚ
  xid : ℕ
  yid : ℕ
  yRows : ℕ
  yCols : ℕ
  trace : List InfEvent

/-- One data-loader batch: read the rows of `x` needed for the batch, apply
the layer, and write the results into `y` at the batch's output nodes (the
reads happen before the writes within a batch). -/
def processBatch (f : (ℕ → ℕ → ℚ) → ℕ → ℕ → ℚ) (s : InfState) (b : List ℕ) : InfState :=
  let vals := f (s.store s.xid)
  { s with
    store := fun t => if t = s.yid then
        (fun v => if v ∈ b then vals v else s.store t v) else s.store t,
    trace := s.trace ++ [InfEvent.procBatch b s.yRows s.yCols] }

/-- Fuel-driven chunking helper for `chunkList`. -/
def chunkAux (k : ℕ) : ℕ → List ℕ → List (List ℕ)
  | 0, _ => []
  | _, [] => []
  | fuel + 1, x :: xs => ((x :: xs).take k) :: chunkAux k fuel ((x :: xs).drop k)

/-- The batches a data loader with `shuffle=False, drop_last=False` iterates
over a node list: consecutive chunks of `batch_size` nodes in order, the last
chunk possibly shorter. -/
def chunkList (nodes : List ℕ) (batch_size : ℕ) : List (List ℕ) :=
  if batch_size = 0 then [] else chunkAux batch_size nodes.length nodes

/-- One iteration of the layer loop of `DistSAGE.inference`: at the last
layer reallocate `y` as the `(num_nodes, n_classes)` tensor "h_last"; build
the one-hop `NeighborSampler([-1])` and the non-shuffling,
non-last-dropping loader over the node split; run all batches; then assign
`x = y` and hit the barrier. -/
def processLayer (m : DistSAGE) (masks : ℕ → ℕ → ℕ → Bool) (g : GraphQ)
    (nodes : List ℕ) (bs : ℕ) (s : InfState) (i : ℕ) : InfState :=
  let L := m.layers.length
  let s1 : InfState :=
    if i = L - 1 then
      { s with
        yid := 2
        yRows := g.numNodes
        yCols := m.n_classes
        store := fun t => if t = 2 then zerosT else s.store t
        trace := s.trace ++ [InfEvent.allocY g.numNodes m.n_classes] }
    else s
  let s2 : InfState :=
    { s1 with trace := s1.trace ++
        [InfEvent.mkSampler [-1], InfEvent.mkLoader bs false false nodes] }
  let s3 : InfState := (chunkList nodes bs).foldl (processBatch (layerFun m masks g i)) s2
  { s3 with xid := s3.yid, trace := s3.trace ++ [InfEvent.assignXY, InfEvent.barrier] }

/-- `DistSAGE.inference(g, x, batch_size, device)`: allocate the persistent
`(num_nodes, n_hidden)` DistTensor "h", run every layer over this process's
node split, and return the final `y` together with the event trace. -/
def DistSAGE.inference (m : DistSAGE) (masks : ℕ → ℕ → ℕ → Bool) (g : GraphQ)
    (x0 : ℕ → ℕ → ℚ) (nodes : List ℕ) (bs : ℕ) : (ℕ → ℕ → ℚ) × List InfEvent :=
  let s0 : InfState :=
    { store := fun t => if t = 0 then x0 else zerosT, xid := 0, yid := 1,
      yRows := g.numNodes, yCols := m.n_hidden,
      trace := [InfEvent.allocY g.numNodes m.n_hidden] }
  let sF := (List.range m.layers.length).foldl (processLayer m masks g nodes bs) s0
  (sF.store sF.yid, sF.trace)

lemma foldBatch_ids (f : (ℕ → ℕ → ℚ) → ℕ → ℕ → ℚ) (bs : List (List ℕ)) :
    ∀ (s : InfState),
      (bs.foldl (processBatch f) s).xid = s.xid ∧
      (bs.foldl (processBatch f) s).yid = s.yid ∧
      (bs.foldl (processBatch f) s).yRows = s.yRows ∧
      (bs.foldl (processBatch f) s).yCols = s.yCols ∧
      (bs.foldl (processBatch f) s).trace =
        s.trace ++ bs.map (fun b => InfEvent.procBatch b s.yRows s.yCols) := by
  induction bs with
  | nil => intro s; simp
  | cons b tl ih =>
    intro s
    rw [List.foldl_cons]
    obtain ⟨h1, h2, h3, h4, h5⟩ := ih (processBatch f s b)
    refine ⟨h1, h2, h3, h4, ?_⟩
    rw [h5]
    simp [processBatch]

lemma processBatch_store_other (f : (ℕ → ℕ → ℚ) → ℕ → ℕ → ℚ) (s : InfState)
    (b : List ℕ) (t : ℕ) (ht : t ≠ s.yid) :
    (processBatch f s b).store t = s.store t := by
  simp only [processBatch]
  rw [if_neg ht]

lemma processBatch_store_y (f : (ℕ → ℕ → ℚ) → ℕ → ℕ → ℚ) (s : InfState)
    (b : List ℕ) (v : ℕ) :
    (processBatch f s b).store s.yid v =
      if v ∈ b then f (s.store s.xid) v else s.store s.yid v := by
  simp [processBatch]

lemma foldBatch_store_other (f : (ℕ → ℕ → ℚ) → ℕ → ℕ → ℚ) (bs : List (List ℕ)) :
    ∀ (s : InfState) (t : ℕ), t ≠ s.yid →
      (bs.foldl (processBatch f) s).store t = s.store t := by
  induction bs with
  | nil => intro s t _; rfl
  | cons b tl ih =>
    intro s t ht
    rw [List.foldl_cons]
    have hyid : (processBatch f s b).yid = s.yid := rfl
    rw [ih (processBatch f s b) t (by rw [hyid]; exact ht)]
    exact processBatch_store_other f s b t ht

lemma foldBatch_store_y (f : (ℕ → ℕ → ℚ) → ℕ → ℕ → ℚ) (bs : List (List ℕ)) :
    ∀ (s : InfState), s.xid ≠ s.yid → ∀ (v : ℕ),
      (bs.foldl (processBatch f) s).store s.yid v =
        if v ∈ bs.flatten then f (s.store s.xid) v else s.store s.yid v := by
  induction bs with
  | nil =>
    intro s _ v
    rw [List.foldl_nil, List.flatten_nil]
    rw [if_neg (by simp)]
  | cons b tl ih =>
    intro s hxy v
    rw [List.foldl_cons]
    have hxid : (processBatch f s b).xid = s.xid := rfl
    have hyid : (processBatch f s b).yid = s.yid := rfl
    have hstep := ih (processBatch f s b) (by rw [hxid, hyid]; exact hxy) v
    rw [hyid, hxid] at hstep
    rw [hstep]
    have hsx : (processBatch f s b).store s.xid = s.store s.xid :=
      processBatch_store_other f s b s.xid hxy
    rw [hsx, processBatch_store_y]
    rw [List.flatten_cons]
    by_cases hv1 : v ∈ tl.flatten
    · rw [if_pos hv1, if_pos (by simp [hv1])]
    · rw [if_neg hv1]
      by_cases hv2 : v ∈ b
      · rw [if_pos hv2, if_pos (by simp [hv2])]
      · rw [if_neg hv2, if_neg (by simp [hv1, hv2])]

lemma chunkAux_flatten (k : ℕ) (hk : k ≠ 0) :
    ∀ (fuel : ℕ) (xs : List ℕ), xs.length ≤ fuel → (chunkAux k fuel xs).flatten = xs := by
  intro fuel
  induction fuel with
  | zero =>
    intro xs hlen
    have : xs = [] := List.eq_nil_of_length_eq_zero (by omega)
    subst this
    rfl
  | succ n ih =>
    intro xs hlen
    match xs with
    | [] => rfl
    | x :: rest =>
      rw [chunkAux, List.flatten_cons]
      have hdl : ((x :: rest).drop k).length = (x :: rest).length - k :=
        List.length_drop k (x :: rest)
      have hlen2 : ((x :: rest).drop k).length ≤ n := by
        rw [hdl]
        simp only [List.length_cons] at hlen ⊢
        omega
      rw [ih ((x :: rest).drop k) hlen2]
      exact List.take_append_drop k (x :: rest)

lemma chunkList_flatten (nodes : List ℕ) (bs : ℕ) (hbs : 0 < bs) :
    (chunkList nodes bs).flatten = nodes := by
  unfold chunkList
  rw [if_neg (by omega)]
  exact chunkAux_flatten bs (by omega) nodes.length nodes le_rfl

lemma processLayer_notLast (m : DistSAGE) (masks : ℕ → ℕ → ℕ → Bool) (g : GraphQ)
    (nodes : List ℕ) (bs : ℕ) (s : InfState) (i : ℕ)
    (hiL : i ≠ m.layers.length - 1) (hxy : s.xid ≠ s.yid) (hbs : 0 < bs)
    (hcov : ∀ v, v ∈ nodes ↔ v < g.numNodes) :
    (processLayer m masks g nodes bs s i).xid = s.yid ∧
    (processLayer m masks g nodes bs s i).yid = s.yid ∧
    (∀ v, (processLayer m masks g nodes bs s i).store s.yid v =
      if v < g.numNodes then layerFun m masks g i (s.store s.xid) v else s.store s.yid v) ∧
    (∀ t, t ≠ s.yid → (processLayer m masks g nodes bs s i).store t = s.store t) := by
  unfold processLayer
  dsimp only
  rw [if_neg hiL]
  set s2 : InfState := { s with trace := s.trace ++
    [InfEvent.mkSampler [-1], InfEvent.mkLoader bs false false nodes] } with hs2
  have h2x : s2.xid = s.xid := rfl
  have h2y : s2.yid = s.yid := rfl
  have h2st : s2.store = s.store := rfl
  obtain ⟨hfx, hfy, _, _, _⟩ :=
    foldBatch_ids (layerFun m masks g i) (chunkList nodes bs) s2
  refine ⟨by rw [hfy, h2y], by rw [hfy, h2y], ?_, ?_⟩
  · intro v
    have := foldBatch_store_y (layerFun m masks g i) (chunkList nodes bs) s2
      (by rw [h2x, h2y]; exact hxy) v
    rw [h2y, h2x, h2st] at this
    rw [this, chunkList_flatten nodes bs hbs]
    exact if_congr (hcov v) rfl rfl
  · intro t ht
    have := foldBatch_store_other (layerFun m masks g i) (chunkList nodes bs) s2 t
      (by rw [h2y]; exact ht)
    rw [h2st] at this
    exact this

lemma processLayer_last (m : DistSAGE) (masks : ℕ → ℕ → ℕ → Bool) (g : GraphQ)
    (nodes : List ℕ) (bs : ℕ) (s : InfState) (i : ℕ)
    (hiL : i = m.layers.length - 1) (hx2 : s.xid ≠ 2) (hbs : 0 < bs)
    (hcov : ∀ v, v ∈ nodes ↔ v < g.numNodes) :
    (processLayer m masks g nodes bs s i).xid = 2 ∧
    (processLayer m masks g nodes bs s i).yid = 2 ∧
    (∀ v, (processLayer m masks g nodes bs s i).store 2 v =
      if v < g.numNodes then layerFun m masks g i (s.store s.xid) v else zerosT v) ∧
    (∀ t, t ≠ 2 → (processLayer m masks g nodes bs s i).store t = s.store t) := by
  unfold processLayer
  dsimp only
  rw [if_pos hiL]
  set s1 : InfState := { s with
    yid := 2
    yRows := g.numNodes
    yCols := m.n_classes
    store := fun t => if t = 2 then zerosT else s.store t
    trace := s.trace ++ [InfEvent.allocY g.numNodes m.n_classes] } with hs1
  set s2 : InfState := { s1 with trace := s1.trace ++
    [InfEvent.mkSampler [-1], InfEvent.mkLoader bs false false nodes] } with hs2
  have h2x : s2.xid = s.xid := rfl
  have h2y : s2.yid = 2 := rfl
  have h2st : s2.store = fun t => if t = 2 then zerosT else s.store t := rfl
  obtain ⟨hfx, hfy, _, _, _⟩ :=
    foldBatch_ids (layerFun m masks g i) (chunkList nodes bs) s2
  refine ⟨by rw [hfy, h2y], by rw [hfy, h2y], ?_, ?_⟩
  · intro v
    have := foldBatch_store_y (layerFun m masks g i) (chunkList nodes bs) s2
      (by rw [h2x, h2y]; exact hx2) v
    rw [h2y, h2x, h2st] at this
    rw [this, chunkList_flatten nodes bs hbs]
    dsimp only
    rw [if_neg hx2]
    exact if_congr (hcov v) rfl rfl
  · intro t ht
    have := foldBatch_store_other (layerFun m masks g i) (chunkList nodes bs) s2 t
      (by rw [h2y]; exact ht)
    rw [h2st] at this
    rw [this]
    dsimp only
    rw [if_neg ht]

/-- The value layer-wise inference computes for every node of a 2-layer
model: the two per-node layer maps composed, restricted to the graph's
nodes — manifestly independent of the batching. -/
def inferTwoCanon (m : DistSAGE) (masks : ℕ → ℕ → ℕ → Bool) (g : GraphQ)
    (x0 : ℕ → ℕ → ℚ) : ℕ → ℕ → ℚ :=
  fun v =>
    if v < g.numNodes then
      layerFun m masks g 1
        (fun v2 => if v2 < g.numNodes then layerFun m masks g 0 x0 v2 else zerosT v2) v
    else zerosT v

lemma inference_two_layer (m : DistSAGE) (masks : ℕ → ℕ → ℕ → Bool) (g : GraphQ)
    (x0 : ℕ → ℕ → ℚ) (nodes : List ℕ) (bs : ℕ)
    (hL : m.layers.length = 2) (hbs : 0 < bs)
    (hcov : ∀ v, v ∈ nodes ↔ v < g.numNodes) :
    (DistSAGE.inference m masks g x0 nodes bs).1 = inferTwoCanon m masks g x0 := by
  unfold DistSAGE.inference
  dsimp only
  rw [hL]
  have hrange : List.range 2 = [0, 1] := rfl
  rw [hrange, List.foldl_cons, List.foldl_cons, List.foldl_nil]
  set s0 : InfState :=
    { store := fun t => if t = 0 then x0 else zerosT, xid := 0, yid := 1,
      yRows := g.numNodes, yCols := m.n_hidden,
      trace := [InfEvent.allocY g.numNodes m.n_hidden] } with hs0
  have h0x : s0.xid = 0 := rfl
  have h0y : s0.yid = 1 := rfl
  have h0s0 : s0.store 0 = x0 := rfl
  have h0s1 : s0.store 1 = zerosT := rfl
  obtain ⟨hAx, hAy, hAsy, hAso⟩ := processLayer_notLast m masks g nodes bs s0 0
    (by omega) (by rw [h0x, h0y]; omega) hbs hcov
  set sA := processLayer m masks g nodes bs s0 0 with hsA
  rw [h0y] at hAx hAy hAsy
  rw [h0x, h0s0] at hAsy
  have hAstore1 : sA.store 1 = fun v =>
      if v < g.numNodes then layerFun m masks g 0 x0 v else zerosT v := by
    funext v
    rw [hAsy v, h0s1]
  obtain ⟨hBx, hBy, hBsy, hBso⟩ := processLayer_last m masks g nodes bs sA 1
    (by omega) (by rw [hAx]; omega) hbs hcov
  set sB := processLayer m masks g nodes bs sA 1 with hsB
  rw [hBy]
  funext v
  rw [hBsy v, hAx, hAstore1]
  rfl

/-- A small graph for the inference theorems: 2 nodes, the in-neighborhood
of each node is node 0. -/
def gInf : GraphQ :=
  ⟨2, fun _ => [0]⟩

/-- Input features on `gInf`: node 0 carries 1.0, node 1 carries 0.0. -/
def x0Inf : ℕ → ℕ → ℚ :=
  fun v o => if v = 0 ∧ o = 0 then 1 else 0

/-- All-ones weights with zero bias for 1-dimensional layers. -/
def onesW : ConvWeights :=
  ⟨fun _ _ => 1, fun _ _ => 1, fun _ => 0⟩

/-- A 3-layer DistSAGE with 1-dimensional layers, identity activation, in
inference (eval) mode. -/
def m3Inf : DistSAGE :=
  { DistSAGE.init 1 1 1 3 (fun q => q) (1/2) (fun _ => onesW) with training := false }

/-- A 2-layer DistSAGE with 1-dimensional layers, identity activation, in
inference (eval) mode. -/
def m2Inf : DistSAGE :=
  { DistSAGE.init 1 1 1 2 (fun q => q) (1/2) (fun _ => onesW) with training := false }

/-- C4 counterexample: for the 3-layer model on the fixed 2-node graph,
layer-wise inference over the same node split `[0, 1]` gives node 1 the
output 9 with batch size 1 but 7 with batch size 2: the middle layer reads
and writes the same DistTensor "h" (`x = y` makes them alias), so an earlier
batch's writes leak into a later batch's reads. -/
theorem c4_counterexample :
    (DistSAGE.inference m3Inf (fun _ _ _ => false) gInf x0Inf [0, 1] 1).1 1 0 = 9 ∧
    (DistSAGE.inference m3Inf (fun _ _ _ => false) gInf x0Inf [0, 1] 2).1 1 0 = 7 ∧
    (7 : ℚ) < 9 := by
  have hlay : m3Inf.layers = [mkConv onesW 1 1, mkConv onesW 1 1, mkConv onesW 1 1] := rfl
  have hrange : List.range m3Inf.layers.length = [0, 1, 2] := rfl
  have hr3 : List.range 3 = [0, 1, 2] := rfl
  have hr1 : List.range 1 = [0] := rfl
  have hchunk1 : chunkList [0, 1] 1 = [[0], [1]] := rfl
  have hchunk2 : chunkList [0, 1] 2 = [[0, 1]] := rfl
  refine ⟨?_, ?_, by norm_num⟩
  · norm_num [DistSAGE.inference, hrange, processLayer, hlay, hchunk1, processBatch,
      layerFun, sageNodeOut, meanInNbr, dropout1, zerosT, hr1, hr3,
      gInf, x0Inf, onesW, mkConv, m3Inf, DistSAGE.init]
  · norm_num [DistSAGE.inference, hrange, processLayer, hlay, hchunk2, processBatch,
      layerFun, sageNodeOut, meanInNbr, dropout1, zerosT, hr1, hr3,
      gInf, x0Inf, onesW, mkConv, m3Inf, DistSAGE.init]

/-- C4 (amended): for a model whose layer stack has exactly 2 layers (as
built by the script's default `n_layers = 2`), in inference (eval) mode, the
layer-wise inference result is one fixed function of the graph, the inputs
and the parameters: it is identical for every batch size and every node
split covering the graph's nodes.  (With 3 or more layers the middle layers
alias `x` and `y`, and the counterexample shows batch-size dependence.) -/
theorem c4_amended_inference_deterministic (m : DistSAGE) (masks : ℕ → ℕ → ℕ → Bool)
    (g : GraphQ) (x0 : ℕ → ℕ → ℚ) (nodes₁ nodes₂ : List ℕ) (bs₁ bs₂ : ℕ)
    (hL : m.layers.length = 2) (_htr : m.training = false)
    (hbs₁ : 0 < bs₁) (hbs₂ : 0 < bs₂)
    (hcov₁ : ∀ v, v ∈ nodes₁ ↔ v < g.numNodes)
    (hcov₂ : ∀ v, v ∈ nodes₂ ↔ v < g.numNodes) :
    (DistSAGE.inference m masks g x0 nodes₁ bs₁).1 =
      (DistSAGE.inference m masks g x0 nodes₂ bs₂).1 := by
  rw [inference_two_layer m masks g x0 nodes₁ bs₁ hL hbs₁ hcov₁,
    inference_two_layer m masks g x0 nodes₂ bs₂ hL hbs₂ hcov₂]

/-- Witness for C4: the 2-layer model on the 2-node graph gives the same
inference result for node split `[0, 1]` with batch size 1 and node split
`[1, 0]` with batch size 2. -/
theorem c4_witness :
    m2Inf.layers.length = 2 ∧ m2Inf.training = false ∧
    (DistSAGE.inference m2Inf (fun _ _ _ => false) gInf x0Inf [0, 1] 1).1 =
      (DistSAGE.inference m2Inf (fun _ _ _ => false) gInf x0Inf [1, 0] 2).1 :=
  ⟨rfl, rfl,
    c4_amended_inference_deterministic m2Inf (fun _ _ _ => false) gInf x0Inf
      [0, 1] [1, 0] 1 2 rfl rfl (by norm_num) (by norm_num)
      (by
        intro v
        simp only [gInf, List.mem_cons, List.not_mem_nil, or_false]
        omega)
      (by
        intro v
        simp only [gInf, List.mem_cons, List.not_mem_nil, or_false]
        omega)⟩

/-- The expected event sequence of one inference layer `i` (out of `L`): the
"h_last" allocation at the final layer, the one-hop `fan_out = -1` sampler,
the loader over the node split with `shuffle=False`, `drop_last=False`, the
fixed-size batches (last one possibly short) each written into a `y` of
shape `(n, hid)` for non-final layers and `(n, cls)` for the final layer,
then the `x = y` assignment and the barrier. -/
def layerSeg (L n hid cls bs : ℕ) (nodes : List ℕ) (i : ℕ) : List InfEvent :=
  (if i = L - 1 then [InfEvent.allocY n cls] else [])
    ++ [InfEvent.mkSampler [-1], InfEvent.mkLoader bs false false nodes]
    ++ (chunkList nodes bs).map
      (fun b => InfEvent.procBatch b n (if i = L - 1 then cls else hid))
    ++ [InfEvent.assignXY, InfEvent.barrier]

lemma processLayer_trace_notLast (m : DistSAGE) (masks : ℕ → ℕ → ℕ → Bool) (g : GraphQ)
    (nodes : List ℕ) (bs : ℕ) (s : InfState) (i : ℕ)
    (hiL : i ≠ m.layers.length - 1) (hR : s.yRows = g.numNodes) (hC : s.yCols = m.n_hidden) :
    (processLayer m masks g nodes bs s i).trace =
      s.trace ++ layerSeg m.layers.length g.numNodes m.n_hidden m.n_classes bs nodes i ∧
    (processLayer m masks g nodes bs s i).yRows = g.numNodes ∧
    (processLayer m masks g nodes bs s i).yCols = m.n_hidden := by
  unfold processLayer
  dsimp only
  rw [if_neg hiL]
  set s2 : InfState := { s with trace := s.trace ++
    [InfEvent.mkSampler [-1], InfEvent.mkLoader bs false false nodes] } with hs2
  obtain ⟨_, _, hfR, hfC, hftr⟩ := foldBatch_ids (layerFun m masks g i) (chunkList nodes bs) s2
  have h2R : s2.yRows = s.yRows := rfl
  have h2C : s2.yCols = s.yCols := rfl
  refine ⟨?_, by rw [hfR, h2R, hR], by rw [hfC, h2C, hC]⟩
  rw [hftr]
  have h2tr : s2.trace = s.trace ++
      [InfEvent.mkSampler [-1], InfEvent.mkLoader bs false false nodes] := rfl
  rw [h2tr, h2R, h2C, hR, hC]
  unfold layerSeg
  rw [if_neg hiL, if_neg hiL]
  simp

lemma processLayer_trace_last (m : DistSAGE) (masks : ℕ → ℕ → ℕ → Bool) (g : GraphQ)
    (nodes : List ℕ) (bs : ℕ) (s : InfState) (i : ℕ)
    (hiL : i = m.layers.length - 1) :
    (processLayer m masks g nodes bs s i).trace =
      s.trace ++ layerSeg m.layers.length g.numNodes m.n_hidden m.n_classes bs nodes i := by
  unfold processLayer
  dsimp only
  rw [if_pos hiL]
  set s1 : InfState := { s with
    yid := 2
    yRows := g.numNodes
    yCols := m.n_classes
    store := fun t => if t = 2 then zerosT else s.store t
    trace := s.trace ++ [InfEvent.allocY g.numNodes m.n_classes] } with hs1
  set s2 : InfState := { s1 with trace := s1.trace ++
    [InfEvent.mkSampler [-1], InfEvent.mkLoader bs false false nodes] } with hs2
  obtain ⟨_, _, hfR, hfC, hftr⟩ := foldBatch_ids (layerFun m masks g i) (chunkList nodes bs) s2
  rw [hftr]
  have h2tr : s2.trace = s.trace ++ [InfEvent.allocY g.numNodes m.n_classes] ++
      [InfEvent.mkSampler [-1], InfEvent.mkLoader bs false false nodes] := rfl
  have h2R : s2.yRows = g.numNodes := rfl
  have h2C : s2.yCols = m.n_classes := rfl
  rw [h2tr, h2R, h2C]
  unfold layerSeg
  rw [if_pos hiL, if_pos hiL]
  simp

lemma inferFold_trace (m : DistSAGE) (masks : ℕ → ℕ → ℕ → Bool) (g : GraphQ)
    (nodes : List ℕ) (bs : ℕ) :
    ∀ (is : List ℕ) (s : InfState), (∀ i ∈ is, i ≠ m.layers.length - 1) →
      s.yRows = g.numNodes → s.yCols = m.n_hidden →
      (is.foldl (processLayer m masks g nodes bs) s).trace =
        s.trace ++ is.flatMap (layerSeg m.layers.length g.numNodes m.n_hidden m.n_classes bs nodes) ∧
      (is.foldl (processLayer m masks g nodes bs) s).yRows = g.numNodes ∧
      (is.foldl (processLayer m masks g nodes bs) s).yCols = m.n_hidden := by
  intro is
  induction is with
  | nil => intro s _ hR hC; exact ⟨by simp, hR, hC⟩
  | cons i tl ih =>
    intro s hne hR hC
    rw [List.foldl_cons]
    obtain ⟨htr1, hR1, hC1⟩ := processLayer_trace_notLast m masks g nodes bs s i
      (hne i (by simp)) hR hC
    obtain ⟨htr2, hR2, hC2⟩ := ih (processLayer m masks g nodes bs s i)
      (fun j hj => hne j (by simp [hj])) hR1 hC1
    refine ⟨?_, hR2, hC2⟩
    rw [htr2, htr1, List.flatMap_cons, List.append_assoc]

/-- C6: the inference loop's event trace is exactly: one `(num_nodes,
n_hidden)` allocation of `y`, then for every layer `i` — the `(num_nodes,
n_classes)` reallocation first when `i` is the final layer — a one-hop
sampler with fan-outs `[-1]`, a loader over this process's node split with
`shuffle = False` and `drop_last = False`, the in-order fixed-size batches of
that split (final short batch kept) each writing into the `y` of shape
`(num_nodes, n_hidden)` for non-final layers and `(num_nodes, n_classes)`
for the final layer, then the `x = y` assignment followed by the barrier. -/
theorem c6_inference_loop_structure (m : DistSAGE) (masks : ℕ → ℕ → ℕ → Bool)
    (g : GraphQ) (x0 : ℕ → ℕ → ℚ) (nodes : List ℕ) (bs : ℕ) :
    (DistSAGE.inference m masks g x0 nodes bs).2 =
      InfEvent.allocY g.numNodes m.n_hidden ::
        (List.range m.layers.length).flatMap
          (layerSeg m.layers.length g.numNodes m.n_hidden m.n_classes bs nodes) := by
  unfold DistSAGE.inference
  dsimp only
  set s0 : InfState :=
    { store := fun t => if t = 0 then x0 else zerosT, xid := 0, yid := 1,
      yRows := g.numNodes, yCols := m.n_hidden,
      trace := [InfEvent.allocY g.numNodes m.n_hidden] } with hs0
  match hL : m.layers.length with
  | 0 => simp
  | K + 1 =>
    rw [List.range_succ, List.foldl_append, List.foldl_cons, List.foldl_nil]
    obtain ⟨htr1, hR1, hC1⟩ := inferFold_trace m masks g nodes bs (List.range K) s0
      (fun j hj => by
        have : j < K := List.mem_range.mp hj
        omega)
      rfl rfl
    have htr2 := processLayer_trace_last m masks g nodes bs
      ((List.range K).foldl (processLayer m masks g nodes bs) s0) K (by omega)
    rw [htr2, htr1]
    have h0tr : s0.trace = [InfEvent.allocY g.numNodes m.n_hidden] := rfl
    rw [h0tr, hL]
    simp [List.flatMap_append]

/-- The four phases of `evaluate`, in program order: `model.eval()`, the
inference call inside the `th.no_grad()` block, `model.train()`, and the two
`compute_acc` calls. -/
inductive PhaseTag where
  | setEvalMode
  | inferenceRun
  | restoreTrainMode
  | accuracyComputation
deriving DecidableEq

/-- One phase of `evaluate` together with the model's training flag and the
gradient-tracking flag in force while it executes. -/
structure Phase where
  tag : PhaseTag
  training : Bool
  gradEnabled : Bool
deriving DecidableEq

/-- `evaluate(model, g, inputs, labels, val_nid, test_nid, batch_size,
device)`: switch the model to eval mode, run full-graph inference with
gradient tracking disabled (`th.no_grad()` wraps exactly the inference
call), switch back to train mode, then compute the accuracy of the
predictions on the validation ids and on the test ids.  Returns the final
model state, the two accuracies, and the phase trace. -/
def evaluate (m : DistSAGE) (masks : ℕ → ℕ → ℕ → Bool) (g : GraphQ)
    (inputs : ℕ → ℕ → ℚ) (labels : List ℚ) (val_nid test_nid : List ℕ)
    (nodes : List ℕ) (bs : ℕ) : DistSAGE × (Option ℚ × Option ℚ) × List Phase :=
  let gradOutside := true
  let m1 : DistSAGE := { m with training := false }
  let ph1 : Phase := ⟨PhaseTag.setEvalMode, m1.training, gradOutside⟩
  let gradInside := false
  let pred := (DistSAGE.inference m1 masks g inputs nodes bs).1
  let ph2 : Phase := ⟨PhaseTag.inferenceRun, m1.training, gradInside⟩
  let m2 : DistSAGE := { m1 with training := true }
  let ph3 : Phase := ⟨PhaseTag.restoreTrainMode, m2.training, gradOutside⟩
  let predRows := fun (nids : List ℕ) =>
    nids.map (fun v => (List.range m1.n_classes).map (fun o => pred v o))
  let labelRows := fun (nids : List ℕ) => nids.map (fun v => labels.getD v 0)
  let accs := (compute_acc (predRows val_nid) (labelRows val_nid),
    compute_acc (predRows test_nid) (labelRows test_nid))
  let ph4 : Phase := ⟨PhaseTag.accuracyComputation, m2.training, gradOutside⟩
  (m2, accs, [ph1, ph2, ph3, ph4])

/-- C7: for every initial model state, `evaluate` returns with the model in
training mode; gradient tracking is disabled exactly during the inference
phase and the model is in eval mode exactly during the phases before
`model.train()`; and the returned pair is precisely the accuracy of the
eval-mode inference predictions gathered at the validation ids and at the
test ids. -/
theorem c7_evaluate_restores_training (m : DistSAGE) (masks : ℕ → ℕ → ℕ → Bool)
    (g : GraphQ) (inputs : ℕ → ℕ → ℚ) (labels : List ℚ) (val_nid test_nid : List ℕ)
    (nodes : List ℕ) (bs : ℕ) :
    (evaluate m masks g inputs labels val_nid test_nid nodes bs).1.training = true ∧
    (evaluate m masks g inputs labels val_nid test_nid nodes bs).2.2 =
      [⟨PhaseTag.setEvalMode, false, true⟩, ⟨PhaseTag.inferenceRun, false, false⟩,
        ⟨PhaseTag.restoreTrainMode, true, true⟩,
        ⟨PhaseTag.accuracyComputation, true, true⟩] ∧
    (evaluate m masks g inputs labels val_nid test_nid nodes bs).2.1 =
      (compute_acc (val_nid.map (fun v => (List.range m.n_classes).map
          (fun o => (DistSAGE.inference { m with training := false } masks g inputs nodes bs).1 v o)))
        (val_nid.map (fun v => labels.getD v 0)),
      compute_acc (test_nid.map (fun v => (List.range m.n_classes).map
          (fun o => (DistSAGE.inference { m with training := false } masks g inputs nodes bs).1 v o)))
        (test_nid.map (fun v => labels.getD v 0))) :=
  ⟨rfl, rfl, rfl⟩

end NodeClassification
